import Mathlib

/-!
Verification of the batch orchestration and streaming-response pipeline of
the Transcript-parser repository (src/app.js and src/api/llm.js).

JavaScript strings are modelled as lists of Unicode code points
(`List Nat`); raw network bytes as `Nat` in 0..255.  All definitions are
translated from the JavaScript source; modelling choices (for behaviour the
source delegates to the runtime, such as TextDecoder and JSON.parse) are
recorded in the doc comments of the corresponding definitions.
-/

set_option maxRecDepth 100000

namespace TranscriptParser

/-- Code points of a Lean string literal; used to transliterate the JS
string literals of the source into the `List Nat` representation. -/
def strL (s : String) : List Nat := s.data.map Char.toNat

/-- The WhiteSpace and LineTerminator code points removed by
`String.prototype.trim` (ECMA-262: TAB LF VT FF CR SP NBSP, the Zs
category, LS, PS and ZWNBSP). -/
def jsWsChar (c : Nat) : Bool :=
  (9 ≤ c && c ≤ 13) || c = 32 || c = 160 || c = 0x1680 ||
  (0x2000 ≤ c && c ≤ 0x200A) || c = 0x2028 || c = 0x2029 ||
  c = 0x202F || c = 0x205F || c = 0x3000 || c = 0xFEFF

/-- Model of `String.prototype.trim`. -/
def jsTrim (s : List Nat) : List Nat :=
  ((s.dropWhile jsWsChar).reverse.dropWhile jsWsChar).reverse

/-- Model of `String.prototype.startsWith`. -/
def jsStartsWith (s p : List Nat) : Bool := s.take p.length == p

/-- Prepend a carry-over fragment to the first piece of a split result
(used to state how splitting distributes over concatenation). -/
def consHead (p : List Nat) : List (List Nat) → List (List Nat)
  | [] => [p]
  | l :: ls => (p ++ l) :: ls

/-- Model of `String.prototype.split` with separator `"\n"`: splits a code
point list at every newline (code point 10); like the JS function it always
returns at least one (possibly empty) piece. -/
def splitNl : List Nat → List (List Nat)
  | [] => [[]]
  | c :: rest => if c = 10 then [] :: splitNl rest else consHead [c] (splitNl rest)

/-- Model of `lines.pop() || ''` on the result of a split: the last piece
(`[]` for an empty list, which `splitNl` never produces). -/
def lastPiece : List (List Nat) → List Nat
  | [] => []
  | [l] => l
  | _ :: ls => lastPiece ls

/-- The pieces remaining after `lines.pop()`: everything but the last. -/
def frontPieces : List (List Nat) → List (List Nat)
  | [] => []
  | [_] => []
  | l :: ls => l :: frontPieces ls

/-! ### TextDecoder model

`callLLM` (src/app.js:812) and the three server stream readers
(src/api/llm.js) decode each network chunk with
`decoder.decode(value, { stream: true })`.  The decoder is modelled by the
WHATWG UTF-8 decoder state machine: a byte either emits code points or
updates the pending multi-byte state, invalid bytes emit U+FFFD, and — per
the default `ignoreBOM: false` — a U+FEFF appearing as the first code point
of the whole stream is dropped. -/
structure Utf8State where
  cp : Nat
  needed : Nat
  seen : Nat
  lower : Nat
  upper : Nat
deriving DecidableEq, Repr

def utf8Home : Utf8State := ⟨0, 0, 0, 0x80, 0xBF⟩

/-- Handle one byte from the ground state (no multi-byte sequence pending). -/
def utf8Lead (b : Nat) : Utf8State × List Nat :=
  if b ≤ 0x7F then (utf8Home, [b])
  else if 0xC2 ≤ b ∧ b ≤ 0xDF then (⟨b % 32, 1, 0, 0x80, 0xBF⟩, [])
  else if 0xE0 ≤ b ∧ b ≤ 0xEF then
    (⟨b % 16, 2, 0, if b = 0xE0 then 0xA0 else 0x80, if b = 0xED then 0x9F else 0xBF⟩, [])
  else if 0xF0 ≤ b ∧ b ≤ 0xF4 then
    (⟨b % 8, 3, 0, if b = 0xF0 then 0x90 else 0x80, if b = 0xF4 then 0x8F else 0xBF⟩, [])
  else (utf8Home, [0xFFFD])

/-- One byte through the WHATWG UTF-8 decoder: continuation bytes extend the
pending code point; a byte outside the expected boundaries emits U+FFFD and
is reprocessed from the ground state. -/
def utf8Byte (st : Utf8State) (b : Nat) : Utf8State × List Nat :=
  if st.needed = 0 then utf8Lead b
  else if b < st.lower ∨ st.upper < b then
    let (st2, out) := utf8Lead b
    (st2, 0xFFFD :: out)
  else
    let cp2 := st.cp * 64 + b % 64
    if st.seen + 1 = st.needed then (utf8Home, [cp2])
    else (⟨cp2, st.needed, st.seen + 1, 0x80, 0xBF⟩, [])

structure DecodeState where
  u : Utf8State
  bomDone : Bool
deriving DecidableEq, Repr

def decodeHome : DecodeState := ⟨utf8Home, false⟩

/-- Strip a U+FEFF byte-order mark if it is the first code point ever
emitted for this stream (TextDecoder default). -/
def emitBom : Bool → List Nat → Bool × List Nat
  | false, [] => (false, [])
  | false, c :: rest => (true, if c = 0xFEFF then rest else c :: rest)
  | true, cps => (true, cps)

def decodeByte (d : DecodeState) (b : Nat) : DecodeState × List Nat :=
  let (u2, cps) := utf8Byte d.u b
  let (bd2, out) := emitBom d.bomDone cps
  (⟨u2, bd2⟩, out)

/-- `decoder.decode(value, { stream: true })`: run every byte of the chunk
through the decoder, carrying the state, and collect the emitted code
points. -/
def decodeChunk (d : DecodeState) (bytes : List Nat) : DecodeState × List Nat :=
  bytes.foldl
    (fun acc b =>
      let (d2, out) := decodeByte acc.1 b
      (d2, acc.2 ++ out))
    (d, [])

/-! ### Streaming response reader

The shared read loop of `callLLM` (src/app.js:816-853) and the server
stream readers (src/api/llm.js:70-99, 149-184, 228-255): decode the chunk,
append to the carry-over buffer, split on newlines, keep the last (possibly
incomplete) piece as the new buffer, and treat the earlier pieces as
complete lines. -/
/-- State of the read loop: decoder state and the carry-over text buffer. -/
structure ReaderState where
  dec : DecodeState
  buffer : List Nat
deriving DecidableEq, Repr

def readerHome : ReaderState := ⟨decodeHome, []⟩

/-- One iteration of the read loop for one network chunk; returns the new
state and the complete lines produced by this iteration. -/
def readerStep (st : ReaderState) (chunk : List Nat) : ReaderState × List (List Nat) :=
  let (dec2, text) := decodeChunk st.dec chunk
  let pieces := splitNl (st.buffer ++ text)
  (⟨dec2, lastPiece pieces⟩, frontPieces pieces)

/-- All complete lines produced by the read loop over a chunk sequence.
The final buffer is never emitted (the source only flushes the decoder at
the end, src/app.js:856-858, and discards the remainder). -/
def readLines (chunks : List (List Nat)) : List (List Nat) :=
  (chunks.foldl
    (fun acc chunk =>
      let (st2, ls) := readerStep acc.1 chunk
      (st2, acc.2 ++ ls))
    (readerHome, [])).2

/-- Candidate SSE record of one line: kept only if the line is nonblank and
carries the `data: ` field marker; the payload is the line with the marker
stripped and trimmed (src/app.js:827-829, src/api/llm.js:82-83). -/
def sseRecordOfLine (l : List Nat) : Option (List Nat) :=
  if (!(jsTrim l).isEmpty) && jsStartsWith l (strL "data: ") then some (jsTrim (l.drop 6))
  else none

/-- The sequence of record payload strings the streaming response reader
produces from a byte-chunk sequence. -/
def readerRecords (chunks : List (List Nat)) : List (List Nat) :=
  (readLines chunks).filterMap sseRecordOfLine

/-! ### JSON model

Both sides of the wire use `JSON.parse` / `JSON.stringify` on each record
payload.  JSON values are modelled by `Json`; numeric values keep only
their integer part (the syntax of fractions and exponents is still
checked; no claim exercises non-integer numbers).  `JSON.parse` errors are
modelled after the classic V8 messages the client compares against
(src/app.js:846): `Unexpected end of JSON input` for truncated input and a
generic token message otherwise. -/
inductive Json where
  | null
  | bool (b : Bool)
  | num (n : Int)
  | str (s : List Nat)
  | arr (elems : List Json)
  | obj (fields : List (List Nat × Json))

inductive JErr where
  | endOfInput
  | badToken
deriving DecidableEq, Repr

def unexpectedEndMsg : List Nat := strL "Unexpected end of JSON input"

/-- Stands for the V8 token-level SyntaxError messages; their exact wording
varies but is never the truncated-input message. -/
def badTokenMsg : List Nat := strL "Unexpected token"

def jerrMsg : JErr → List Nat
  | .endOfInput => unexpectedEndMsg
  | .badToken => badTokenMsg

/-- JSON insignificant whitespace. -/
def jsonWsChar (c : Nat) : Bool := c = 32 || c = 9 || c = 10 || c = 13

def skipJsonWs (s : List Nat) : List Nat := s.dropWhile jsonWsChar

def isDigitCp (c : Nat) : Bool := 48 ≤ c && c ≤ 57

def hexVal (c : Nat) : Option Nat :=
  if 48 ≤ c ∧ c ≤ 57 then some (c - 48)
  else if 65 ≤ c ∧ c ≤ 70 then some (c - 55)
  else if 97 ≤ c ∧ c ≤ 102 then some (c - 87)
  else none

/-- The single-character JSON string escapes. -/
def escMap (c : Nat) : Option Nat :=
  if c = 0x22 then some 0x22
  else if c = 0x5C then some 0x5C
  else if c = 0x2F then some 0x2F
  else if c = 98 then some 8
  else if c = 102 then some 12
  else if c = 110 then some 10
  else if c = 114 then some 13
  else if c = 116 then some 9
  else none

/-- Four hex digits of a `\uXXXX` escape. -/
def hex4 (h1 h2 h3 h4 : Nat) : Option Nat :=
  (hexVal h1).bind fun a =>
  (hexVal h2).bind fun b =>
  (hexVal h3).bind fun c =>
  (hexVal h4).map fun d => a * 4096 + b * 256 + c * 16 + d

/-- Decode one JSON string escape (the input starts after the backslash);
returns the decoded code point and the remaining input. -/
def escDecode (l : List Nat) : Except JErr (Nat × List Nat) :=
  match l with
  | [] => .error .endOfInput
  | e :: rest2 =>
    match escMap e with
    | some d => .ok (d, rest2)
    | none =>
      if e = 117 then
        match rest2 with
        | h1 :: h2 :: h3 :: h4 :: rest3 =>
          match hex4 h1 h2 h3 h4 with
          | some v => .ok (v, rest3)
          | none => .error .badToken
        | _ => .error .endOfInput
      else .error .badToken

/-- Parse the body of a JSON string (the opening quote has already been
consumed); returns the decoded content and the input after the closing
quote.  The fuel argument only bounds the recursion; every entry point
supplies more fuel than the input length, so it is never exhausted. -/
def parseJStr : Nat → List Nat → Except JErr (List Nat × List Nat)
  | 0, _ => .error .endOfInput
  | fuel + 1, l =>
    match l with
    | [] => .error .endOfInput
    | c :: rest =>
      if c = 0x22 then .ok ([], rest)
      else if c = 0x5C then
        match escDecode rest with
        | .error e => .error e
        | .ok (d, rest2) => (parseJStr fuel rest2).map fun p => (d :: p.1, p.2)
      else if c < 0x20 then .error .badToken
      else (parseJStr fuel rest).map fun p => (c :: p.1, p.2)

/-- Parse the remainder of a JSON number after its integer digits:
optional fraction and exponent (syntax only; the value keeps the integer
part). -/
def parseNumTail (s : List Nat) : Except JErr (List Nat) :=
  let afterFrac : Except JErr (List Nat) :=
    match s with
    | 46 :: r2 =>
      if (r2.takeWhile isDigitCp).isEmpty then
        if r2.isEmpty then .error .endOfInput else .error .badToken
      else .ok (r2.dropWhile isDigitCp)
    | _ => .ok s
  match afterFrac with
  | .error e => .error e
  | .ok r3 =>
    match r3 with
    | 101 :: r4 | 69 :: r4 =>
      let r5 := if r4.headD 0 = 43 ∨ r4.headD 0 = 45 then r4.tail else r4
      if (r5.takeWhile isDigitCp).isEmpty then
        if r5.isEmpty then .error .endOfInput else .error .badToken
      else .ok (r5.dropWhile isDigitCp)
    | _ => .ok r3

def digitsVal (ds : List Nat) : Nat := ds.foldl (fun a c => a * 10 + (c - 48)) 0

/-- Parse a JSON number whose first significant character is `c` (a digit
or a minus sign). -/
def parseJNum (c : Nat) (rest : List Nat) : Except JErr (Json × List Nat) :=
  if c = 45 then
    match rest with
    | [] => .error .endOfInput
    | d :: r =>
      if isDigitCp d then
        let ds := (d :: r).takeWhile isDigitCp
        if 1 < ds.length ∧ ds.headD 0 = 48 then .error .badToken
        else
          match parseNumTail ((d :: r).dropWhile isDigitCp) with
          | .error e => .error e
          | .ok r2 => .ok (.num (-(digitsVal ds : Int)), r2)
      else .error .badToken
  else
    let ds := (c :: rest).takeWhile isDigitCp
    if 1 < ds.length ∧ ds.headD 0 = 48 then .error .badToken
    else
      match parseNumTail ((c :: rest).dropWhile isDigitCp) with
      | .error e => .error e
      | .ok r2 => .ok (.num (digitsVal ds : Int), r2)

mutual

/-- Recursive-descent JSON value parser.  The fuel argument only bounds the
nesting the parser will follow; the top-level entry point supplies more
fuel than any input can consume. -/
def parseVal : Nat → List Nat → Except JErr (Json × List Nat)
  | 0, _ => .error .endOfInput
  | fuel + 1, s =>
    match skipJsonWs s with
    | [] => .error .endOfInput
    | c :: rest =>
      if c = 0x22 then
        match parseJStr fuel rest with
        | .ok (str, r) => .ok (.str str, r)
        | .error e => .error e
      else if c = 123 then parseObjBody fuel rest
      else if c = 91 then parseArrBody fuel rest
      else if c = 116 then
        match rest with
        | 114 :: 117 :: 101 :: r => .ok (.bool true, r)
        | _ => if rest.length < 3 then .error .endOfInput else .error .badToken
      else if c = 102 then
        match rest with
        | 97 :: 108 :: 115 :: 101 :: r => .ok (.bool false, r)
        | _ => if rest.length < 4 then .error .endOfInput else .error .badToken
      else if c = 110 then
        match rest with
        | 117 :: 108 :: 108 :: r => .ok (.null, r)
        | _ => if rest.length < 3 then .error .endOfInput else .error .badToken
      else if c = 45 ∨ isDigitCp c then parseJNum c rest
      else .error .badToken
termination_by structural fuel _ => fuel

/-- Parse an object body (after the opening brace, code point 123). -/
def parseObjBody : Nat → List Nat → Except JErr (Json × List Nat)
  | 0, _ => .error .endOfInput
  | fuel + 1, s =>
    match skipJsonWs s with
    | [] => .error .endOfInput
    | c :: rest =>
      if c = 125 then .ok (.obj [], rest)
      else parseMemberLoop fuel [] (c :: rest)
termination_by structural fuel _ => fuel

/-- Parse one `"key": value` member and the following separator, looping on
commas until the closing brace (code point 125). -/
def parseMemberLoop : Nat → List (List Nat × Json) → List Nat → Except JErr (Json × List Nat)
  | 0, _, _ => .error .endOfInput
  | fuel + 1, acc, s =>
    match skipJsonWs s with
    | [] => .error .endOfInput
    | c :: rest =>
      if c = 0x22 then
        match parseJStr fuel rest with
        | .error e => .error e
        | .ok (key, r1) =>
          match skipJsonWs r1 with
          | [] => .error .endOfInput
          | c2 :: r2 =>
            if c2 = 58 then
              (parseVal fuel r2).bind fun vr =>
                match skipJsonWs vr.2 with
                | [] => .error .endOfInput
                | c3 :: r4 =>
                  if c3 = 44 then parseMemberLoop fuel (acc ++ [(key, vr.1)]) r4
                  else if c3 = 125 then .ok (.obj (acc ++ [(key, vr.1)]), r4)
                  else .error .badToken
            else .error .badToken
      else .error .badToken
termination_by structural fuel _ _ => fuel

/-- Parse an array body (after the opening bracket). -/
def parseArrBody : Nat → List Nat → Except JErr (Json × List Nat)
  | 0, _ => .error .endOfInput
  | fuel + 1, s =>
    match skipJsonWs s with
    | [] => .error .endOfInput
    | c :: rest =>
      if c = 93 then .ok (.arr [], rest)
      else parseElemLoop fuel [] (c :: rest)
termination_by structural fuel _ => fuel

/-- Parse one array element and the following separator, looping on commas
until the closing bracket. -/
def parseElemLoop : Nat → List Json → List Nat → Except JErr (Json × List Nat)
  | 0, _, _ => .error .endOfInput
  | fuel + 1, acc, s =>
    (parseVal fuel s).bind fun vr =>
      match skipJsonWs vr.2 with
      | [] => .error .endOfInput
      | c :: r2 =>
        if c = 44 then parseElemLoop fuel (acc ++ [vr.1]) r2
        else if c = 93 then .ok (.arr (acc ++ [vr.1]), r2)
        else .error .badToken
termination_by structural fuel _ _ => fuel

end

/-- Model of `JSON.parse`: parse one value, then require only whitespace to
remain; errors are reported as the (classic V8) SyntaxError message the
client compares against. -/
def jsonParse (p : List Nat) : Except (List Nat) Json :=
  match parseVal (p.length + 8) p with
  | .error e => .error (jerrMsg e)
  | .ok vr => if skipJsonWs vr.2 = [] then .ok vr.1 else .error badTokenMsg

def hexDigitCp (n : Nat) : Nat := if n < 10 then 48 + n else 87 + n

/-- `JSON.stringify` escaping of one string character: quote, backslash and
the named control escapes, `\u00XX` for other control characters, the
character itself otherwise. -/
def escCp (c : Nat) : List Nat :=
  if c = 0x22 then [0x5C, 0x22]
  else if c = 0x5C then [0x5C, 0x5C]
  else if c = 8 then [0x5C, 98]
  else if c = 9 then [0x5C, 116]
  else if c = 10 then [0x5C, 110]
  else if c = 12 then [0x5C, 102]
  else if c = 13 then [0x5C, 114]
  else if c < 0x20 then [0x5C, 117, 48, 48, hexDigitCp (c / 16), hexDigitCp (c % 16)]
  else [c]

def escStr (s : List Nat) : List Nat := (s.map escCp).flatten

/-- The payload `JSON.stringify({ chunk: s })` the backend writes for one
text increment (src/api/llm.js:91): code points of
`{"chunk":"` ++ escaped s ++ `"}`. -/
def mkChunkRecord (s : List Nat) : List Nat :=
  [123, 0x22] ++ strL "chunk" ++ [0x22, 58, 0x22] ++ escStr s ++ [0x22, 125]

/-- The payload `JSON.stringify({ done: true })` (src/api/llm.js:107). -/
def mkDoneRecord : List Nat := [123, 0x22] ++ strL "done" ++ [0x22, 58] ++ strL "true" ++ [125]

/-- The payload `JSON.stringify({ error: m })` (src/api/llm.js:37). -/
def mkErrorRecord (m : List Nat) : List Nat :=
  [123, 0x22] ++ strL "error" ++ [0x22, 58, 0x22] ++ escStr m ++ [0x22, 125]

/-- JS truthiness of a possibly-absent value. -/
def jsTruthy : Option Json → Bool
  | none => false
  | some .null => false
  | some (.bool b) => b
  | some (.num n) => n != 0
  | some (.str s) => !s.isEmpty
  | some (.arr _) => true
  | some (.obj _) => true

def natDecimal (n : Nat) : List Nat := (Nat.toDigits 10 n).map Char.toNat

mutual

/-- JS string coercion `String(v)` of a parsed JSON value, fuel-bounded
(the entry point supplies more fuel than any value's depth). -/
def jsToStringF : Nat → Json → List Nat
  | 0, _ => []
  | fuel + 1, v =>
    match v with
    | .null => strL "null"
    | .bool true => strL "true"
    | .bool false => strL "false"
    | .num n => if n < 0 then 45 :: natDecimal n.natAbs else natDecimal n.toNat
    | .str s => s
    | .arr l => jsToStringElemsF fuel l
    | .obj _ => strL "[object Object]"
termination_by structural fuel _ => fuel

/-- `Array.prototype.toString`: elements joined by commas, with null
rendered empty. -/
def jsToStringElemsF : Nat → List Json → List Nat
  | 0, _ => []
  | fuel + 1, l =>
    match l with
    | [] => []
    | [x] => jsToStringElemF fuel x
    | x :: rest => jsToStringElemF fuel x ++ [44] ++ jsToStringElemsF fuel rest
termination_by structural fuel _ => fuel

def jsToStringElemF : Nat → Json → List Nat
  | 0, _ => []
  | fuel + 1, x =>
    match x with
    | .null => []
    | v => jsToStringF fuel v
termination_by structural fuel _ => fuel

end

/-! ### Client record processing (src/app.js:827-852)

For each record payload the client runs `JSON.parse` inside a try block.
A parse failure is rethrown unless its message is exactly
`Unexpected end of JSON input`; a parsed record with a truthy `error`
field raises `new Error(parsed.error)`, which lands in the same catch and
is likewise rethrown unless its message is empty or equals that exact
string; a truthy `chunk` field is appended to the accumulated result. -/
/-- Accessing a property of `null` throws a TypeError; the exact message is
environment specific, the model only relies on it being nonempty and
different from the truncated-input message. -/
def typeErrorNullMsg : List Nat := strL "TypeError: Cannot read properties of null"

def isNullJson : Json → Bool
  | .null => true
  | _ => false

/-- Last-occurrence association lookup (duplicate JSON keys resolve to the
last, as `JSON.parse` does). -/
def assocLast (key : List Nat) : List (List Nat × Json) → Option Json
  | [] => none
  | f :: rest => (assocLast key rest).elim (if f.1 = key then some f.2 else none) some

/-- JS property access `v.key` on a parse result: defined on objects,
absent (`undefined`, here `none`) on all other non-null values. -/
def jsGet (v : Json) (key : List Nat) : Option Json :=
  match v with
  | .obj fields => assocLast key fields
  | _ => none

/-- Processing of one record payload by `callLLM`
(src/app.js:831-850): returns the new accumulated result, or the message
of the error that the loop rethrows. -/
def processRecord (fullResult : List Nat) (data : List Nat) : Except (List Nat) (List Nat) :=
  match jsonParse data with
  | .error msg => if msg ≠ [] ∧ msg ≠ unexpectedEndMsg then .error msg else .ok fullResult
  | .ok parsed =>
    if isNullJson parsed then .error typeErrorNullMsg
    else
      let errF := jsGet parsed (strL "error")
      if jsTruthy errF then
        let emsg := jsToStringF (data.length + 2) (errF.getD .null)
        if emsg ≠ [] ∧ emsg ≠ unexpectedEndMsg then .error emsg else .ok fullResult
      else
        let chF := jsGet parsed (strL "chunk")
        if jsTruthy chF then .ok (fullResult ++ jsToStringF (data.length + 2) (chF.getD .null))
        else .ok fullResult

/-- Run the record loop over a payload sequence: returns the values the
`onChunk` callback writes (one per appended chunk), the final accumulated
result, and the rethrown error message, if any (consumption stops there). -/
def runRecordsAux : List (List Nat) → List Nat → List (List Nat) × List Nat × Option (List Nat)
  | [], acc => ([], acc, none)
  | p :: ps, acc =>
    match processRecord acc p with
    | .error m => ([], acc, some m)
    | .ok acc2 =>
      let r := runRecordsAux ps acc2
      (if acc2 = acc then r.1 else acc2 :: r.1, r.2)

/-- Final accumulated result and error outcome of the record loop. -/
def runRecords (ps : List (List Nat)) (acc : List Nat) : List Nat × Option (List Nat) :=
  (runRecordsAux ps acc).2

/-! ### Job runner and batch coordinator (src/app.js:864-935)

One file's behaviour is the data the environment supplies to its job: the
outcome of PDF extraction and the behaviour of the LLM transport (a
rejected fetch, or the byte chunks of the SSE body).  `processFile` runs
extraction, then `callLLM`, updating only its own entry of
`currentResults`; its catch block converts every thrown error into the
`error` status.  The per-assignment write sequence is modelled explicitly
(`jobWrites`) so that scheduling theorems can interleave jobs. -/
inductive JobStatus where
  | pending
  | processing
  | complete
  | error
deriving DecidableEq, Repr

structure JobResult where
  filename : List Nat
  status : JobStatus
  statusText : List Nat
  output : List Nat
deriving DecidableEq, Repr

inductive LlmCall where
  | reject (message : List Nat)
  | stream (chunks : List (List Nat))
deriving DecidableEq, Repr

deriving instance DecidableEq for Except

structure FileBehavior where
  name : List Nat
  extract : Except (List Nat) (List Nat)
  llm : LlmCall
deriving DecidableEq, Repr

/-- `extractTextFromPDF` (src/app.js:677-696): passes the extracted text
through, and wraps any extraction error in
`Failed to extract text from NAME: MESSAGE`. -/
def extractTextFromPDF (f : FileBehavior) : Except (List Nat) (List Nat) :=
  match f.extract with
  | .ok t => .ok t
  | .error m => .error (strL "Failed to extract text from " ++ f.name ++ strL ": " ++ m)

/-- `callLLM` (src/app.js:776-861), record-level outcome: the accumulated
full result and the thrown error, if any.  The prompt and document text do
not appear because the upstream response is the abstracted input. -/
def callLLM (c : LlmCall) : List Nat × Option (List Nat) :=
  match c with
  | .reject m => ([], some m)
  | .stream chunks => runRecords (readerRecords chunks) []

/-- One assignment to a job's entry in `currentResults`; `filename` is
never assigned after construction. -/
inductive JobWrite where
  | setStatus (s : JobStatus)
  | setStatusText (t : List Nat)
  | setOutput (o : List Nat)
deriving DecidableEq, Repr

def applyWrite (r : JobResult) : JobWrite → JobResult
  | .setStatus s => { r with status := s }
  | .setStatusText t => { r with statusText := t }
  | .setOutput o => { r with output := o }

/-- The result entry built at batch start (src/app.js:878-883). -/
def initJob (f : FileBehavior) : JobResult :=
  ⟨f.name, .pending, strL "Pending...", []⟩

/-- The ordered sequence of assignments `processFile` makes to its own
entry (src/app.js:892-925): status and message on entering extraction;
either the extraction failure, or the LLM phase with one output write per
`onChunk` call followed by the completion or failure writes. -/
def jobWrites (f : FileBehavior) : List JobWrite :=
  [.setStatus .processing, .setStatusText (strL "Extracting text...")] ++
  match extractTextFromPDF f with
  | .error m => [.setStatus .error, .setStatusText (strL "Error: " ++ m)]
  | .ok _ =>
    [.setStatusText (strL "Processing with LLM...")] ++
    match f.llm with
    | .reject m => [.setStatus .error, .setStatusText (strL "Error: " ++ m)]
    | .stream chunks =>
      let r := runRecordsAux (readerRecords chunks) []
      (r.1.map JobWrite.setOutput) ++
      match r.2.2 with
      | some m => [.setStatus .error, .setStatusText (strL "Error: " ++ m)]
      | none => [.setStatus .complete, .setStatusText (strL "Complete"), .setOutput r.2.1]

/-- The terminal state of one job: all of its writes applied in order. -/
def runJob (f : FileBehavior) : JobResult :=
  (jobWrites f).foldl applyWrite (initJob f)

/-- `handleParse` (src/app.js:864-935): rejects on an empty file list or a
blank prompt before any job is constructed; otherwise builds one result
entry per file in input order and runs every job (`Promise.all`), which
resolves with all jobs terminal because `processFile` catches internally. -/
def handleParse (files : List FileBehavior) (prompt : List Nat) :
    Except (List Nat) (List JobResult) :=
  if files.length = 0 then .error (strL "Please upload at least one PDF file")
  else if jsTrim prompt = [] then .error (strL "Please enter a prompt")
  else .ok (files.map runJob)

/-! ### Cooperative scheduling of the batch

The runtime is single-threaded and event-driven: the per-job write
sequences interleave in some order at suspension points, and each
`processFile` writes only its own entry of the shared result table.  A
schedule is a list of job indices; each step applies the chosen job's next
pending write to its own slot.  The theorems show the final table is the
same for every complete schedule. -/
/-- One scheduling step: job `k` performs its next pending write (a no-op
for an exhausted or out-of-range index). -/
def schedStep (st : List JobResult × List (List JobWrite)) (k : Nat) :
    List JobResult × List (List JobWrite) :=
  match st.2[k]? with
  | some (w :: restW) =>
    (match st.1[k]? with
     | some r => st.1.set k (applyWrite r w)
     | none => st.1,
     st.2.set k restW)
  | _ => st

/-- Run a schedule from the batch-start state: the result entries built in
input order (src/app.js:878-883), and each job's pending writes. -/
def runSched (files : List FileBehavior) (order : List Nat) :
    List JobResult × List (List JobWrite) :=
  order.foldl schedStep (files.map initJob, files.map jobWrites)

/-- A schedule is complete when every job has performed all its writes. -/
def schedDone (st : List JobResult × List (List JobWrite)) : Bool :=
  st.2.all List.isEmpty

/-- Invariant tying a mid-schedule state to the per-job write sequences:
every slot holds its own prefix of writes applied to its initial entry. -/
def StateOK (files : List FileBehavior) (st : List JobResult × List (List JobWrite)) : Prop :=
  st.1.length = files.length ∧ st.2.length = files.length ∧
  ∀ i (_ : i < files.length), ∃ done pend,
    st.2[i]? = some pend ∧
    jobWrites files[i] = done ++ pend ∧
    st.1[i]? = some (done.foldl applyWrite (initJob files[i]))

/-! ### Backend streaming endpoint (src/api/llm.js)

The handler streams one provider call.  Each provider reader consumes the
upstream SSE body with the same decode/split loop as the client
(`readerRecords`), extracts text content from each record with a
provider-specific rule, and writes one `{chunk}` record per truthy
content; on upstream exhaustion it writes `{done:true}`; any error thrown
(rejected handshake, mid-stream read failure) reaches the handler's catch,
which writes one `{error}` record. -/
inductive SseRecord where
  | chunk (v : Json)
  | done
  | err (m : List Nat)

/-- JS bracket access `v[0]` as used on `parsed.choices` and
`parsed.candidates`: first element of an array, property `"0"` of an
object, first character of a string. -/
def jsIndex0 : Json → Option Json
  | .arr (x :: _) => some x
  | .obj fields => assocLast (strL "0") fields
  | .str (c :: _) => some (.str [c])
  | _ => none

/-- Null-safe property step for an optional-chaining access `x?.key`. -/
def jsGetOpt (key : List Nat) (v : Json) : Option Json := jsGet v key

/-- OpenAI record handling (src/api/llm.js:82-96): skip the literal
`[DONE]` sentinel, skip records that fail to parse (logged only), read
`parsed.choices[0]?.delta?.content`, and emit it only when truthy; any
TypeError from the access chain is caught by the same catch and skipped. -/
def openaiExtract (p : List Nat) : Option Json :=
  if p = strL "[DONE]" then none
  else
    match jsonParse p with
    | .error _ => none
    | .ok v =>
      let content := ((jsGet v (strL "choices")).bind jsIndex0).bind
        (jsGetOpt (strL "delta")) |>.bind (jsGetOpt (strL "content"))
      if jsTruthy content then content else none

/-- Anthropic record handling (src/api/llm.js:161-181): only
`content_block_delta` records carry text, in `parsed.delta?.text`. -/
def anthropicExtract (p : List Nat) : Option Json :=
  match jsonParse p with
  | .error _ => none
  | .ok v =>
    let typeOk : Bool :=
      match jsGet v (strL "type") with
      | some (.str s) => decide (s = strL "content_block_delta")
      | _ => false
    let content := (jsGet v (strL "delta")).bind (jsGetOpt (strL "text"))
    if typeOk && jsTruthy content then content else none

/-- Gemini record handling (src/api/llm.js:240-252):
`parsed.candidates?.[0]?.content?.parts?.[0]?.text`. -/
def geminiExtract (p : List Nat) : Option Json :=
  match jsonParse p with
  | .error _ => none
  | .ok v =>
    let content := ((((jsGet v (strL "candidates")).bind jsIndex0).bind
      (jsGetOpt (strL "content"))).bind (jsGetOpt (strL "parts"))).bind
      jsIndex0 |>.bind (jsGetOpt (strL "text"))
    if jsTruthy content then content else none

/-- Behaviour of the upstream provider call as the stream functions see
it: either the handshake is rejected (the thrown message carried here), or
a sequence of body chunks is delivered followed by clean exhaustion or a
read error. -/
inductive UpstreamFetch where
  | rejected (message : List Nat)
  | ok (chunks : List (List Nat)) (readError : Option (List Nat))

/-- One provider stream function (streamOpenAI / streamAnthropic /
streamGemini, src/api/llm.js:42-269) abstracted over its record handling:
returns the records written to the response and the error it throws, if
any.  On a rejected handshake nothing is written; on a read error the
records written so far stand; on exhaustion a `{done:true}` record is
written last. -/
def streamProvider (extract : List Nat → Option Json) (u : UpstreamFetch) :
    List SseRecord × Option (List Nat) :=
  match u with
  | .rejected m => ([], some m)
  | .ok chunks readError =>
    let recs := ((readerRecords chunks).filterMap extract).map SseRecord.chunk
    match readError with
    | some m => (recs, some m)
    | none => (recs ++ [SseRecord.done], none)

/-- The handler around one provider stream (src/api/llm.js:5-40): a thrown
error is converted into one final `{error}` record. -/
def llmHandler (extract : List Nat → Option Json) (u : UpstreamFetch) : List SseRecord :=
  match streamProvider extract u with
  | (recs, some m) => recs ++ [SseRecord.err m]
  | (recs, none) => recs

/-! ### Provider request parameters (src/api/llm.js:42-57, 115-135, 200-215)

Each stream function builds its outbound request body once per call; there
is no retry anywhere.  The model name is the only configurable part
(request override, then environment variable, then a hard-coded default);
the output-token cap is the literal 16000 in every adapter, OpenAI and
Gemini set temperature 0.7, and Anthropic sets no temperature at all. -/
structure ProviderRequest where
  model : List Nat
  temperature : Option Rat
  maxOutputTokens : Nat
  streamFlag : Option Bool
deriving DecidableEq, Repr

/-- JS `a || b` on strings: empty (falsy) falls through.  An unset
environment variable is modelled as the empty string. -/
def jsOrStr (a b : List Nat) : List Nat := if a = [] then b else a

def openaiRequest (modelName envModel : List Nat) : ProviderRequest :=
  ⟨jsOrStr modelName (jsOrStr envModel (strL "gpt-5.1")),
    some ((7 : Rat) / 10), 16000, some true⟩

def anthropicRequest (modelName envModel : List Nat) : ProviderRequest :=
  ⟨jsOrStr modelName (jsOrStr envModel (strL "claude-sonnet-4-5-20250929")),
    none, 16000, some true⟩

def geminiRequest (modelName envModel : List Nat) : ProviderRequest :=
  ⟨jsOrStr modelName (jsOrStr envModel (strL "gemini-3-pro-preview")),
    some ((7 : Rat) / 10), 16000, none⟩

/-! ### File-list management (src/app.js:652-669)

`addFiles` filters the incoming files to PDFs, appends those whose name is
not already present (checking against the growing list, so duplicates
within one call are also dropped), and sorts the whole list with
`a.name.localeCompare(b.name)`.  Locale collation is modelled as the code
point order on Lean strings. -/
structure UploadFile where
  name : String
  isPdfMime : Bool
deriving DecidableEq, Repr

/-- The PDF filter (`file.type === 'application/pdf' ||
file.name.endsWith('.pdf')`). -/
def isPdfFile (f : UploadFile) : Bool := f.isPdfMime || f.name.endsWith ".pdf"

def fileLe (a b : UploadFile) : Bool := decide (a.name ≤ b.name)

def addFiles (uploadedFiles files : List UploadFile) : List UploadFile :=
  ((files.filter isPdfFile).foldl
    (fun acc f => if acc.any (fun g => g.name = f.name) then acc else acc ++ [f])
    uploadedFiles).mergeSort fileLe

/-! ### Concrete fixtures used by the witnesses -/
/-- SSE framing of a payload sequence into one body byte-chunk (every
payload used here is ASCII, so bytes equal code points). -/
def sseBytes (payloads : List (List Nat)) : List Nat :=
  (payloads.map (fun p => strL "data: " ++ p ++ strL "\n\n")).flatten

def exChunksC3 : List (List Nat) :=
  [sseBytes [mkChunkRecord (strL "Hel"), mkChunkRecord (strL "lo, "),
    mkChunkRecord (strL "world"), mkDoneRecord]]

def exFileC3 : FileBehavior := ⟨strL "a.pdf", .ok (strL "T"), .stream exChunksC3⟩

def exFileBad : FileBehavior := ⟨strL "b.pdf", .error (strL "corrupt PDF"), .stream []⟩

def exFileC7 : FileBehavior :=
  ⟨strL "c.pdf", .ok (strL "T"),
    .stream [sseBytes [mkChunkRecord (strL "par"), mkErrorRecord (strL "rate limited")]]⟩

def exFileC5 : FileBehavior :=
  ⟨strL "a.pdf", .ok (strL "T"),
    .stream [sseBytes [strL "x", mkChunkRecord (strL "A"), mkDoneRecord]]⟩

def exFileC5b : FileBehavior :=
  ⟨strL "a.pdf", .ok (strL "T"),
    .stream [sseBytes [[123], mkChunkRecord (strL "A"), mkDoneRecord]]⟩

/-- An interleaved complete schedule for the two-file witness batch. -/
def exOrder : List Nat := [0, 1, 0, 1, 0, 1, 0, 1, 0, 0, 0, 0, 0]

/-- A file whose extraction succeeds and whose stream is a sequence of
chunk records with the given payloads followed by the done record. -/
def goodStream (f : FileBehavior) (css : List (List Nat)) : Prop :=
  (∃ t, f.extract = .ok t) ∧
  ∃ cs, f.llm = .stream cs ∧ readerRecords cs = css.map mkChunkRecord ++ [mkDoneRecord]

/-- A file whose job ends Failed: extraction throws, the transport call
rejects, or the record loop rethrows. -/
def jobFails (f : FileBehavior) : Prop :=
  (∃ m, f.extract = .error m) ∨ (∃ m, f.llm = .reject m) ∨
  (∃ cs acc m, f.llm = .stream cs ∧ runRecords (readerRecords cs) [] = (acc, some m))

def exUploads : List UploadFile := [⟨"b.pdf", true⟩, ⟨"a.pdf", true⟩, ⟨"a.pdf", false⟩]

theorem splitNl_ne_nil (s : List Nat) : splitNl s ≠ [] := by
  cases s with
  | nil => simp [splitNl]
  | cons c rest =>
    simp only [splitNl]
    split
    · simp
    · cases h : splitNl rest <;> simp [consHead]

theorem consHead_consHead (p q : List Nat) (s : List (List Nat)) :
    consHead p (consHead q s) = consHead (p ++ q) s := by
  cases s <;> simp [consHead]

theorem consHead_nil_left {s : List (List Nat)} (h : s ≠ []) : consHead [] s = s := by
  cases s with
  | nil => exact absurd rfl h
  | cons l ls => simp [consHead]

theorem lastPiece_cons {S : List (List Nat)} (x : List Nat) (h : S ≠ []) :
    lastPiece (x :: S) = lastPiece S := by
  cases S with
  | nil => exact absurd rfl h
  | cons l ls => rfl

theorem frontPieces_cons {S : List (List Nat)} (x : List Nat) (h : S ≠ []) :
    frontPieces (x :: S) = x :: frontPieces S := by
  cases S with
  | nil => exact absurd rfl h
  | cons l ls => rfl

/-- Splitting a concatenation: the pieces of `xs` except its last, then the
split of `ys` with the dangling last piece of `xs` glued onto its front. -/
theorem splitNl_append (xs ys : List Nat) :
    splitNl (xs ++ ys) =
      frontPieces (splitNl xs) ++ consHead (lastPiece (splitNl xs)) (splitNl ys) := by
  induction xs with
  | nil =>
    show splitNl ys = frontPieces [[]] ++ consHead (lastPiece [[]]) (splitNl ys)
    rw [show frontPieces [[]] = [] from rfl, show lastPiece [[]] = ([] : List Nat) from rfl,
      consHead_nil_left (splitNl_ne_nil ys), List.nil_append]
  | cons c rest ih =>
    have hne := splitNl_ne_nil rest
    by_cases hc : c = 10
    · subst hc
      have hL : splitNl ((10 : Nat) :: (rest ++ ys)) = [] :: splitNl (rest ++ ys) := by
        simp [splitNl]
      have hR : splitNl ((10 : Nat) :: rest) = [] :: splitNl rest := by
        simp [splitNl]
      rw [List.cons_append, hL, hR, ih, frontPieces_cons _ hne, lastPiece_cons _ hne,
        List.cons_append]
    · have hL : splitNl (c :: (rest ++ ys)) = consHead [c] (splitNl (rest ++ ys)) := by
        simp [splitNl, hc]
      have hR : splitNl (c :: rest) = consHead [c] (splitNl rest) := by
        simp [splitNl, hc]
      rw [List.cons_append, hL, hR, ih]
      cases hS : splitNl rest with
      | nil => exact absurd hS hne
      | cons l ls =>
        cases ls with
        | nil =>
          show consHead [c] (consHead (lastPiece [l]) (splitNl ys)) = _
          rw [consHead_consHead]
          rfl
        | cons m ms =>
          show consHead [c] (l :: (frontPieces (m :: ms) ++ consHead (lastPiece (m :: ms)) (splitNl ys)))
              = _
          rfl

theorem decodeChunk_out_shift (bytes : List Nat) (d : DecodeState) (out0 : List Nat) :
    bytes.foldl
      (fun acc b =>
        let (d2, out) := decodeByte acc.1 b
        (d2, acc.2 ++ out))
      (d, out0)
    = ((decodeChunk d bytes).1, out0 ++ (decodeChunk d bytes).2) := by
  induction bytes generalizing d out0 with
  | nil => simp [decodeChunk]
  | cons b rest ih =>
    simp only [decodeChunk, List.foldl_cons, List.nil_append]
    rw [ih, ih]
    simp [List.append_assoc]

theorem decodeChunk_append (d : DecodeState) (a b : List Nat) :
    decodeChunk d (a ++ b)
      = ((decodeChunk (decodeChunk d a).1 b).1,
         (decodeChunk d a).2 ++ (decodeChunk (decodeChunk d a).1 b).2) := by
  have h := decodeChunk_out_shift b (decodeChunk d a).1 (decodeChunk d a).2
  rw [Prod.mk.eta] at h
  have h2 : decodeChunk d (a ++ b)
      = b.foldl
          (fun acc b =>
            let (d2, out) := decodeByte acc.1 b
            (d2, acc.2 ++ out))
          (decodeChunk d a) := by
    simp only [decodeChunk, List.foldl_append]
  rw [h2, h]

/-- Every piece of a split contains no newline. -/
theorem splitNl_no_nl (s : List Nat) : ∀ l ∈ splitNl s, 10 ∉ l := by
  induction s with
  | nil =>
    intro l hl
    rw [show splitNl [] = [[]] from rfl, List.mem_singleton] at hl
    subst hl
    simp
  | cons c rest ih =>
    intro l hl
    by_cases hc : c = 10
    · subst hc
      rw [show splitNl (10 :: rest) = [] :: splitNl rest from by simp [splitNl]] at hl
      rcases List.mem_cons.mp hl with heq | hmem
      · subst heq; simp
      · exact ih l hmem
    · rw [show splitNl (c :: rest) = consHead [c] (splitNl rest) from by simp [splitNl, hc]] at hl
      cases hS : splitNl rest with
      | nil => exact absurd hS (splitNl_ne_nil rest)
      | cons p ps =>
        rw [hS] at hl
        rcases List.mem_cons.mp hl with heq | hmem
        · subst heq
          intro hmem10
          rcases List.mem_append.mp hmem10 with h1 | h1
          · exact hc (List.mem_singleton.mp h1).symm
          · exact ih p (hS ▸ List.mem_cons_self p ps) h1
        · exact ih l (hS ▸ List.mem_cons_of_mem p hmem)

/-- Splitting a newline-free string yields exactly one piece. -/
theorem splitNl_of_no_nl {s : List Nat} (h : 10 ∉ s) : splitNl s = [s] := by
  induction s with
  | nil => rfl
  | cons c rest ih =>
    have hc : c ≠ 10 := fun hc => h (by simp [hc])
    have hrest : 10 ∉ rest := fun hm => h (List.mem_cons_of_mem c hm)
    simp only [splitNl, if_neg hc, ih hrest, consHead, List.singleton_append]

theorem lastPiece_no_nl_of_all {S : List (List Nat)} (hall : ∀ l ∈ S, 10 ∉ l) :
    10 ∉ lastPiece S := by
  induction S with
  | nil => simp [lastPiece]
  | cons l ls ih =>
    cases hls : ls with
    | nil => simpa [lastPiece] using hall l (List.mem_cons_self l ls)
    | cons m ms =>
      subst hls
      rw [lastPiece_cons l (by simp)]
      exact ih fun x hx => hall x (List.mem_cons_of_mem l hx)

/-- The reader buffer (last piece of a split) contains no newline. -/
theorem lastPiece_splitNl_no_nl (s : List Nat) : 10 ∉ lastPiece (splitNl s) :=
  lastPiece_no_nl_of_all (splitNl_no_nl s)

theorem lastPiece_append {T : List (List Nat)} (S : List (List Nat)) (h : T ≠ []) :
    lastPiece (S ++ T) = lastPiece T := by
  induction S with
  | nil => rfl
  | cons l ls ih =>
    rw [List.cons_append, lastPiece_cons l (by simp [h]), ih]

theorem frontPieces_append {T : List (List Nat)} (S : List (List Nat)) (h : T ≠ []) :
    frontPieces (S ++ T) = S ++ frontPieces T := by
  induction S with
  | nil => rfl
  | cons l ls ih =>
    rw [List.cons_append, frontPieces_cons l (by simp [h]), ih, List.cons_append]

/-- Key composition step: feeding the concatenation of two chunks through
one reader iteration equals feeding them one after the other. -/
theorem readerStep_append (st : ReaderState) (c1 c2 : List Nat) :
    readerStep st (c1 ++ c2)
      = ((readerStep (readerStep st c1).1 c2).1,
         (readerStep st c1).2 ++ (readerStep (readerStep st c1).1 c2).2) := by
  obtain ⟨d, buf⟩ := st
  simp only [readerStep, decodeChunk_append]
  set t1 := (decodeChunk d c1).2 with ht1
  set t2 := (decodeChunk (decodeChunk d c1).1 c2).2 with ht2
  have hassoc : buf ++ (t1 ++ t2) = (buf ++ t1) ++ t2 := by
    rw [List.append_assoc]
  rw [hassoc, splitNl_append (buf ++ t1) t2]
  set S := splitNl (buf ++ t1) with hS
  have hSne : S ≠ [] := splitNl_ne_nil _
  have hlast : splitNl (lastPiece S ++ t2) = consHead (lastPiece S) (splitNl t2) := by
    rw [splitNl_append (lastPiece S) t2]
    have hnn : 10 ∉ lastPiece S := lastPiece_splitNl_no_nl (buf ++ t1)
    rw [splitNl_of_no_nl hnn]
    rfl
  have hTne : consHead (lastPiece S) (splitNl t2) ≠ [] := by
    cases h2 : splitNl t2 with
    | nil => exact absurd h2 (splitNl_ne_nil t2)
    | cons p ps => simp [consHead]
  rw [hlast, lastPiece_append (frontPieces S) hTne, frontPieces_append (frontPieces S) hTne]

/-- The read loop over a nonempty chunk list equals a single iteration on
the concatenation of the chunks. -/
theorem reader_foldl_join (cs : List (List Nat)) (c : List Nat) (st : ReaderState)
    (out : List (List Nat)) :
    ((c :: cs).foldl
      (fun acc chunk =>
        let (st2, ls) := readerStep acc.1 chunk
        (st2, acc.2 ++ ls))
      (st, out))
    = ((readerStep st (c :: cs).flatten).1, out ++ (readerStep st (c :: cs).flatten).2) := by
  induction cs generalizing c st out with
  | nil =>
    simp [readerStep]
  | cons c2 cs2 ih =>
    have hL : ((c :: c2 :: cs2).foldl
        (fun acc chunk =>
          let (st2, ls) := readerStep acc.1 chunk
          (st2, acc.2 ++ ls))
        (st, out))
      = ((c2 :: cs2).foldl
          (fun acc chunk =>
            let (st2, ls) := readerStep acc.1 chunk
            (st2, acc.2 ++ ls))
          ((readerStep st c).1, out ++ (readerStep st c).2)) := rfl
    rw [hL, ih]
    have hj : (c :: c2 :: cs2).flatten = c ++ (c2 :: cs2).flatten := by simp
    rw [hj, readerStep_append st c ((c2 :: cs2).flatten)]
    simp [List.append_assoc]

/-! ### Round trip: parsing a stringified record -/
theorem hexVal_hexDigitCp : ∀ n, n < 16 → hexVal (hexDigitCp n) = some n := by decide

theorem escCp_length_pos (c : Nat) : 1 ≤ (escCp c).length := by
  unfold escCp
  split <;> try simp
  split <;> try simp
  split <;> try simp
  split <;> try simp
  split <;> try simp
  split <;> try simp
  split <;> try simp
  split <;> simp

theorem escStr_length_ge (s : List Nat) : s.length ≤ (escStr s).length := by
  induction s with
  | nil => simp [escStr]
  | cons c s2 ih =>
    have hstep : escStr (c :: s2) = escCp c ++ escStr s2 := by simp [escStr]
    rw [hstep, List.length_append, List.length_cons]
    have := escCp_length_pos c
    omega

theorem parseJStr_escStr (s : List Nat) : ∀ (fuel : Nat) (r : List Nat),
    s.length + 1 ≤ fuel →
    parseJStr fuel (escStr s ++ (0x22 :: r)) = .ok (s, r) := by
  induction s with
  | nil =>
    intro fuel r h
    obtain ⟨g, rfl⟩ : ∃ g, fuel = g + 1 := ⟨fuel - 1, by omega⟩
    show parseJStr (g + 1) (0x22 :: r) = _
    simp [parseJStr]
  | cons c s2 ih =>
    intro fuel r h
    obtain ⟨g, rfl⟩ : ∃ g, fuel = g + 1 := ⟨fuel - 1, by omega⟩
    have hg : s2.length + 1 ≤ g := by
      simp only [List.length_cons] at h
      omega
    have hih := ih g r hg
    have hstep : escStr (c :: s2) = escCp c ++ escStr s2 := by simp [escStr]
    rw [hstep, List.append_assoc]
    by_cases h1 : c = 0x22
    · subst h1
      rw [show escCp 0x22 = [0x5C, 0x22] from rfl]
      simp only [List.cons_append, List.nil_append]
      have hd : escDecode (0x22 :: (escStr s2 ++ (0x22 :: r)))
          = .ok (0x22, escStr s2 ++ (0x22 :: r)) := rfl
      simp [parseJStr, hd, hih, Except.map]
    by_cases h2 : c = 0x5C
    · subst h2
      rw [show escCp 0x5C = [0x5C, 0x5C] from rfl]
      simp only [List.cons_append, List.nil_append]
      have hd : escDecode (0x5C :: (escStr s2 ++ (0x22 :: r)))
          = .ok (0x5C, escStr s2 ++ (0x22 :: r)) := rfl
      simp [parseJStr, hd, hih, Except.map]
    by_cases h3 : c = 8
    · subst h3
      rw [show escCp 8 = [0x5C, 98] from rfl]
      simp only [List.cons_append, List.nil_append]
      have hd : escDecode (98 :: (escStr s2 ++ (0x22 :: r)))
          = .ok (8, escStr s2 ++ (0x22 :: r)) := rfl
      simp [parseJStr, hd, hih, Except.map]
    by_cases h4 : c = 9
    · subst h4
      rw [show escCp 9 = [0x5C, 116] from rfl]
      simp only [List.cons_append, List.nil_append]
      have hd : escDecode (116 :: (escStr s2 ++ (0x22 :: r)))
          = .ok (9, escStr s2 ++ (0x22 :: r)) := rfl
      simp [parseJStr, hd, hih, Except.map]
    by_cases h5 : c = 10
    · subst h5
      rw [show escCp 10 = [0x5C, 110] from rfl]
      simp only [List.cons_append, List.nil_append]
      have hd : escDecode (110 :: (escStr s2 ++ (0x22 :: r)))
          = .ok (10, escStr s2 ++ (0x22 :: r)) := rfl
      simp [parseJStr, hd, hih, Except.map]
    by_cases h6 : c = 12
    · subst h6
      rw [show escCp 12 = [0x5C, 102] from rfl]
      simp only [List.cons_append, List.nil_append]
      have hd : escDecode (102 :: (escStr s2 ++ (0x22 :: r)))
          = .ok (12, escStr s2 ++ (0x22 :: r)) := rfl
      simp [parseJStr, hd, hih, Except.map]
    by_cases h7 : c = 13
    · subst h7
      rw [show escCp 13 = [0x5C, 114] from rfl]
      simp only [List.cons_append, List.nil_append]
      have hd : escDecode (114 :: (escStr s2 ++ (0x22 :: r)))
          = .ok (13, escStr s2 ++ (0x22 :: r)) := rfl
      simp [parseJStr, hd, hih, Except.map]
    by_cases h8 : c < 0x20
    · have hesc : escCp c = [0x5C, 117, 48, 48, hexDigitCp (c / 16), hexDigitCp (c % 16)] := by
        simp [escCp, h1, h2, h3, h4, h5, h6, h7, h8]
      have hx1 : hexVal (hexDigitCp (c / 16)) = some (c / 16) :=
        hexVal_hexDigitCp _ (by omega)
      have hx2 : hexVal (hexDigitCp (c % 16)) = some (c % 16) :=
        hexVal_hexDigitCp _ (by omega)
      have h48 : hexVal 48 = some 0 := rfl
      have hval : hex4 48 48 (hexDigitCp (c / 16)) (hexDigitCp (c % 16)) = some c := by
        rw [hex4, h48, hx1, hx2]
        simp only [Option.bind, Option.map, Option.some.injEq]
        omega
      have hd : escDecode (117 :: 48 :: 48 :: hexDigitCp (c / 16) :: hexDigitCp (c % 16) ::
          (escStr s2 ++ (0x22 :: r))) = .ok (c, escStr s2 ++ (0x22 :: r)) := by
        simp [escDecode, escMap, hval]
      rw [hesc]
      simp only [List.cons_append, List.nil_append]
      simp [parseJStr, hd, hih, Except.map]
    · have hesc : escCp c = [c] := by
        simp [escCp, h1, h2, h3, h4, h5, h6, h7, h8]
      rw [hesc]
      simp only [List.cons_append, List.nil_append]
      simp [parseJStr, h1, h2, h8, hih, Except.map]

theorem parseVal_strValue (s : List Nat) (fuel : Nat) (r : List Nat)
    (h : s.length + 2 ≤ fuel) :
    parseVal fuel (0x22 :: (escStr s ++ (0x22 :: r))) = .ok (.str s, r) := by
  obtain ⟨g, rfl⟩ : ∃ g, fuel = g + 1 := ⟨fuel - 1, by omega⟩
  have hstr := parseJStr_escStr s g r (by omega)
  simp [parseVal, skipJsonWs, jsonWsChar, hstr]

theorem parseMemberLoop_chunk (s : List Nat) (fuel : Nat)
    (h : s.length + 8 ≤ fuel) :
    parseMemberLoop fuel []
      (0x22 :: 99 :: 104 :: 117 :: 110 :: 107 :: 0x22 :: 58 ::
        0x22 :: (escStr s ++ (0x22 :: [125])))
      = .ok (.obj [(strL "chunk", .str s)], []) := by
  obtain ⟨g, rfl⟩ : ∃ g, fuel = g + 1 := ⟨fuel - 1, by omega⟩
  have hkey : parseJStr g
      (99 :: 104 :: 117 :: 110 :: 107 :: 0x22 :: 58 :: 0x22 :: (escStr s ++ (0x22 :: [125])))
      = .ok (strL "chunk", 58 :: 0x22 :: (escStr s ++ (0x22 :: [125]))) :=
    parseJStr_escStr (strL "chunk") g (58 :: 0x22 :: (escStr s ++ (0x22 :: [125]))) (by
      simp [strL]
      omega)
  have hval : parseVal g (0x22 :: (escStr s ++ (0x22 :: [125]))) = .ok (.str s, [125]) :=
    parseVal_strValue s g [125] (by omega)
  simp [parseMemberLoop, skipJsonWs, jsonWsChar, hkey, hval, Except.bind]

theorem parseObjBody_chunk (s : List Nat) (fuel : Nat)
    (h : s.length + 9 ≤ fuel) :
    parseObjBody fuel
      (0x22 :: 99 :: 104 :: 117 :: 110 :: 107 :: 0x22 :: 58 ::
        0x22 :: (escStr s ++ (0x22 :: [125])))
      = .ok (.obj [(strL "chunk", .str s)], []) := by
  obtain ⟨g, rfl⟩ : ∃ g, fuel = g + 1 := ⟨fuel - 1, by omega⟩
  have hm := parseMemberLoop_chunk s g (by omega)
  simp [parseObjBody, skipJsonWs, jsonWsChar, hm]

theorem parseVal_mkChunkRecord (s : List Nat) (fuel : Nat)
    (h : s.length + 10 ≤ fuel) :
    parseVal fuel (mkChunkRecord s) = .ok (.obj [(strL "chunk", .str s)], []) := by
  obtain ⟨g, rfl⟩ : ∃ g, fuel = g + 1 := ⟨fuel - 1, by omega⟩
  have hrec : mkChunkRecord s
      = 123 :: 0x22 :: 99 :: 104 :: 117 :: 110 :: 107 :: 0x22 :: 58 ::
        0x22 :: (escStr s ++ (0x22 :: [125])) := by
    simp [mkChunkRecord, strL]
  have hobj := parseObjBody_chunk s g (by omega)
  rw [hrec]
  simp [parseVal, skipJsonWs, jsonWsChar, hobj]

theorem jsonParse_mkChunkRecord (s : List Nat) :
    jsonParse (mkChunkRecord s) = .ok (.obj [(strL "chunk", .str s)]) := by
  unfold jsonParse
  have hge := escStr_length_ge s
  have hlen : (mkChunkRecord s).length = 12 + (escStr s).length := by
    simp [mkChunkRecord, strL]
    omega
  rw [parseVal_mkChunkRecord s ((mkChunkRecord s).length + 8) (by omega)]
  simp [skipJsonWs]

theorem parseMemberLoop_error (m : List Nat) (fuel : Nat)
    (h : m.length + 8 ≤ fuel) :
    parseMemberLoop fuel []
      (0x22 :: 101 :: 114 :: 114 :: 111 :: 114 :: 0x22 :: 58 ::
        0x22 :: (escStr m ++ (0x22 :: [125])))
      = .ok (.obj [(strL "error", .str m)], []) := by
  obtain ⟨g, rfl⟩ : ∃ g, fuel = g + 1 := ⟨fuel - 1, by omega⟩
  have hkey : parseJStr g
      (101 :: 114 :: 114 :: 111 :: 114 :: 0x22 :: 58 :: 0x22 :: (escStr m ++ (0x22 :: [125])))
      = .ok (strL "error", 58 :: 0x22 :: (escStr m ++ (0x22 :: [125]))) :=
    parseJStr_escStr (strL "error") g (58 :: 0x22 :: (escStr m ++ (0x22 :: [125]))) (by
      simp [strL]
      omega)
  have hval : parseVal g (0x22 :: (escStr m ++ (0x22 :: [125]))) = .ok (.str m, [125]) :=
    parseVal_strValue m g [125] (by omega)
  simp [parseMemberLoop, skipJsonWs, jsonWsChar, hkey, hval, Except.bind]

theorem parseObjBody_error (m : List Nat) (fuel : Nat)
    (h : m.length + 9 ≤ fuel) :
    parseObjBody fuel
      (0x22 :: 101 :: 114 :: 114 :: 111 :: 114 :: 0x22 :: 58 ::
        0x22 :: (escStr m ++ (0x22 :: [125])))
      = .ok (.obj [(strL "error", .str m)], []) := by
  obtain ⟨g, rfl⟩ : ∃ g, fuel = g + 1 := ⟨fuel - 1, by omega⟩
  have hm := parseMemberLoop_error m g (by omega)
  simp [parseObjBody, skipJsonWs, jsonWsChar, hm]

theorem parseVal_mkErrorRecord (m : List Nat) (fuel : Nat)
    (h : m.length + 10 ≤ fuel) :
    parseVal fuel (mkErrorRecord m) = .ok (.obj [(strL "error", .str m)], []) := by
  obtain ⟨g, rfl⟩ : ∃ g, fuel = g + 1 := ⟨fuel - 1, by omega⟩
  have hrec : mkErrorRecord m
      = 123 :: 0x22 :: 101 :: 114 :: 114 :: 111 :: 114 :: 0x22 :: 58 ::
        0x22 :: (escStr m ++ (0x22 :: [125])) := by
    simp [mkErrorRecord, strL]
  have hobj := parseObjBody_error m g (by omega)
  rw [hrec]
  simp [parseVal, skipJsonWs, jsonWsChar, hobj]

theorem jsonParse_mkErrorRecord (m : List Nat) :
    jsonParse (mkErrorRecord m) = .ok (.obj [(strL "error", .str m)]) := by
  unfold jsonParse
  have hge := escStr_length_ge m
  have hlen : (mkErrorRecord m).length = 12 + (escStr m).length := by
    simp [mkErrorRecord, strL]
    omega
  rw [parseVal_mkErrorRecord m ((mkErrorRecord m).length + 8) (by omega)]
  simp [skipJsonWs]

theorem jsonParse_mkDoneRecord :
    jsonParse mkDoneRecord = .ok (.obj [(strL "done", .bool true)]) := by
  rfl

theorem processRecord_mkChunkRecord (acc s : List Nat) :
    processRecord acc (mkChunkRecord s) = .ok (acc ++ s) := by
  have hp := jsonParse_mkChunkRecord s
  have hc : strL "chunk" = [99, 104, 117, 110, 107] := rfl
  have he : strL "error" = [101, 114, 114, 111, 114] := rfl
  by_cases hs : s = []
  · subst hs
    simp [processRecord, hp, isNullJson, jsGet, assocLast, jsTruthy, jsToStringF, hc, he]
  · simp [processRecord, hp, isNullJson, jsGet, assocLast, jsTruthy, jsToStringF, hc, he, hs]

theorem processRecord_mkDoneRecord (acc : List Nat) :
    processRecord acc mkDoneRecord = .ok acc := by
  have hp := jsonParse_mkDoneRecord
  have hd : strL "done" = [100, 111, 110, 101] := rfl
  have hc : strL "chunk" = [99, 104, 117, 110, 107] := rfl
  have he : strL "error" = [101, 114, 114, 111, 114] := rfl
  simp [processRecord, hp, isNullJson, jsGet, assocLast, jsTruthy, hd, hc, he]

theorem processRecord_mkErrorRecord (acc m : List Nat) (hm1 : m ≠ [])
    (hm2 : m ≠ unexpectedEndMsg) :
    processRecord acc (mkErrorRecord m) = .error m := by
  have hp := jsonParse_mkErrorRecord m
  have he : strL "error" = [101, 114, 114, 111, 114] := rfl
  simp [processRecord, hp, isNullJson, jsGet, assocLast, jsTruthy, jsToStringF, he, hm1, hm2]

theorem runRecordsAux_chunks_done (css : List (List Nat)) : ∀ acc : List Nat,
    (runRecordsAux (css.map mkChunkRecord ++ [mkDoneRecord]) acc).2
      = (acc ++ css.flatten, none) := by
  induction css with
  | nil =>
    intro acc
    simp [runRecordsAux, processRecord_mkDoneRecord]
  | cons c cs ih =>
    intro acc
    simp only [List.map_cons, List.cons_append, runRecordsAux,
      processRecord_mkChunkRecord, List.flatten_cons, List.append_eq]
    rw [ih (acc ++ c), List.append_assoc]

theorem runRecordsAux_chunks_error (css : List (List Nat)) (m : List Nat)
    (rest : List (List Nat)) (hm1 : m ≠ []) (hm2 : m ≠ unexpectedEndMsg) :
    ∀ acc : List Nat,
    (runRecordsAux (css.map mkChunkRecord ++ mkErrorRecord m :: rest) acc).2
      = (acc ++ css.flatten, some m) := by
  induction css with
  | nil =>
    intro acc
    simp [runRecordsAux, processRecord_mkErrorRecord acc m hm1 hm2]
  | cons c cs ih =>
    intro acc
    simp only [List.map_cons, List.cons_append, runRecordsAux,
      processRecord_mkChunkRecord, List.flatten_cons, List.append_eq]
    rw [ih (acc ++ c), List.append_assoc]

/-- The final accumulated result equals the last value the `onChunk`
callback wrote (or the starting value when no chunk arrived). -/
theorem runRecordsAux_acc : ∀ (ps : List (List Nat)) (acc : List Nat),
    (runRecordsAux ps acc).2.1 = (runRecordsAux ps acc).1.foldl (fun _ w => w) acc := by
  intro ps
  induction ps with
  | nil => intro acc; simp [runRecordsAux]
  | cons p ps ih =>
    intro acc
    simp only [runRecordsAux]
    cases hpr : processRecord acc p with
    | error m => simp
    | ok acc2 =>
      simp only []
      by_cases heq : acc2 = acc
      · subst heq
        simp [ih acc2]
      · simp [heq, ih acc2]

theorem applyWrite_filename (r : JobResult) (w : JobWrite) :
    (applyWrite r w).filename = r.filename := by
  cases w <;> rfl

theorem foldl_applyWrite_filename (ws : List JobWrite) : ∀ r : JobResult,
    (ws.foldl applyWrite r).filename = r.filename := by
  induction ws with
  | nil => intro r; rfl
  | cons w ws ih =>
    intro r
    rw [List.foldl_cons, ih, applyWrite_filename]

theorem runJob_filename (f : FileBehavior) : (runJob f).filename = f.name :=
  foldl_applyWrite_filename (jobWrites f) (initJob f)

theorem foldl_applyWrite_setOutputs (ws : List (List Nat)) : ∀ r : JobResult,
    (ws.map JobWrite.setOutput).foldl applyWrite r
      = { r with output := ws.foldl (fun _ w => w) r.output } := by
  induction ws with
  | nil => intro r; simp
  | cons w ws ih =>
    intro r
    simp only [List.map_cons, List.foldl_cons, applyWrite, ih]

/-- A job whose extraction fails goes straight to Failed with the wrapped
extractor message and an empty output. -/
theorem runJob_extract_error (f : FileBehavior) (m : List Nat)
    (h : f.extract = .error m) :
    runJob f = ⟨f.name, .error,
      strL "Error: " ++ (strL "Failed to extract text from " ++ f.name ++ strL ": " ++ m),
      []⟩ := by
  simp [runJob, jobWrites, extractTextFromPDF, h, initJob, applyWrite]

/-- A job whose transport call rejects before streaming goes to Failed
with the rejection message and an empty output. -/
theorem runJob_reject (f : FileBehavior) (t m : List Nat)
    (ht : f.extract = .ok t) (h : f.llm = .reject m) :
    runJob f = ⟨f.name, .error, strL "Error: " ++ m, []⟩ := by
  simp [runJob, jobWrites, extractTextFromPDF, ht, h, initJob, applyWrite]

/-- A job whose stream completes without error ends Complete with the full
accumulated output. -/
theorem runJob_stream_ok (f : FileBehavior) (t : List Nat) (cs : List (List Nat))
    (acc : List Nat) (ht : f.extract = .ok t) (hllm : f.llm = .stream cs)
    (hrun : runRecords (readerRecords cs) [] = (acc, none)) :
    runJob f = ⟨f.name, .complete, strL "Complete", acc⟩ := by
  have h2 : (runRecordsAux (readerRecords cs) []).2 = (acc, none) := hrun
  simp only [runJob, jobWrites, extractTextFromPDF, ht, hllm, h2, initJob]
  rw [List.foldl_append, List.foldl_append, List.foldl_append, foldl_applyWrite_setOutputs]
  simp [applyWrite]

/-- A job whose stream throws ends Failed with that error message, and the
output retains exactly the increments accumulated before the failure. -/
theorem runJob_stream_error (f : FileBehavior) (t : List Nat) (cs : List (List Nat))
    (acc m : List Nat) (ht : f.extract = .ok t) (hllm : f.llm = .stream cs)
    (hrun : runRecords (readerRecords cs) [] = (acc, some m)) :
    runJob f = ⟨f.name, .error, strL "Error: " ++ m, acc⟩ := by
  have h2 : (runRecordsAux (readerRecords cs) []).2 = (acc, some m) := hrun
  have hacc := runRecordsAux_acc (readerRecords cs) []
  rw [h2] at hacc
  simp only at hacc
  simp only [runJob, jobWrites, extractTextFromPDF, ht, hllm, h2, initJob]
  rw [List.foldl_append, List.foldl_append, List.foldl_append, foldl_applyWrite_setOutputs]
  simp [applyWrite, ← hacc]

theorem stateOK_start (files : List FileBehavior) :
    StateOK files (files.map initJob, files.map jobWrites) := by
  refine ⟨by simp, by simp, ?_⟩
  intro i hi
  refine ⟨[], jobWrites files[i], ?_, by simp, ?_⟩
  · rw [List.getElem?_map, List.getElem?_eq_getElem hi]
    rfl
  · rw [List.getElem?_map, List.getElem?_eq_getElem hi]
    rfl

theorem stateOK_step (files : List FileBehavior)
    (st : List JobResult × List (List JobWrite)) (k : Nat)
    (h : StateOK files st) : StateOK files (schedStep st k) := by
  obtain ⟨h1, h2, h3⟩ := h
  unfold schedStep
  cases hp : st.2[k]? with
  | none => exact ⟨h1, h2, h3⟩
  | some pendK =>
    cases pendK with
    | nil => exact ⟨h1, h2, h3⟩
    | cons w restW =>
      have hk : k < files.length := by
        by_contra hk2
        rw [List.getElem?_eq_none (by omega : st.2.length ≤ k)] at hp
        cases hp
      obtain ⟨doneK, pendK0, hpk, hjk, hsk⟩ := h3 k hk
      have hpeq : pendK0 = w :: restW := by
        rw [hp] at hpk
        exact (Option.some.inj hpk).symm
      subst hpeq
      rw [hsk]
      refine ⟨by simp [h1], by simp [h2], ?_⟩
      intro i hi
      by_cases hik : i = k
      · subst hik
        refine ⟨doneK ++ [w], restW, ?_, ?_, ?_⟩
        · rw [List.getElem?_set_self', hp]
          rfl
        · rw [hjk, List.append_assoc]
          rfl
        · rw [List.getElem?_set_self', hsk]
          simp [List.foldl_append, Function.const]
      · obtain ⟨done2, pend2, hpk2, hjk2, hsk2⟩ := h3 i hi
        refine ⟨done2, pend2, ?_, hjk2, ?_⟩
        · rw [List.getElem?_set_ne (fun hh => hik hh.symm)]
          exact hpk2
        · rw [List.getElem?_set_ne (fun hh => hik hh.symm)]
          exact hsk2

theorem stateOK_runSched (files : List FileBehavior) (order : List Nat) :
    StateOK files (runSched files order) := by
  unfold runSched
  suffices h : ∀ st, StateOK files st → StateOK files (order.foldl schedStep st) from
    h _ (stateOK_start files)
  induction order with
  | nil => intro st hst; exact hst
  | cons k ord ih =>
    intro st hst
    exact ih _ (stateOK_step files st k hst)

theorem runSched_length (files : List FileBehavior) (order : List Nat) :
    (runSched files order).1.length = files.length :=
  (stateOK_runSched files order).1

/-- At any point of any schedule, slot `i` still carries file `i`'s name:
the job array is never reordered and filenames are never reassigned. -/
theorem runSched_filename (files : List FileBehavior) (order : List Nat)
    (i : Nat) (hi : i < files.length) :
    ((runSched files order).1[i]?).map JobResult.filename = some (files[i]).name := by
  obtain ⟨h1, h2, h3⟩ := stateOK_runSched files order
  obtain ⟨done, pend, hpk, hjk, hsk⟩ := h3 i hi
  rw [hsk]
  simp [foldl_applyWrite_filename, initJob]

/-- Every complete schedule produces the same final table: each file's
terminal job result, in input order. -/
theorem runSched_done_eq (files : List FileBehavior) (order : List Nat)
    (hdone : schedDone (runSched files order) = true) :
    (runSched files order).1 = files.map runJob := by
  obtain ⟨h1, h2, h3⟩ := stateOK_runSched files order
  apply List.ext_getElem?
  intro i
  by_cases hi : i < files.length
  · obtain ⟨done, pend, hpk, hjk, hsk⟩ := h3 i hi
    have hpend : pend = [] := by
      have hmem : pend ∈ (runSched files order).2 := List.getElem?_mem hpk
      have := (List.all_eq_true.mp hdone) pend hmem
      simpa [List.isEmpty_iff] using this
    subst hpend
    rw [List.append_nil] at hjk
    rw [hsk, List.getElem?_map, List.getElem?_eq_getElem hi]
    simp [runJob, hjk]
  · rw [List.getElem?_eq_none (by omega : (runSched files order).1.length ≤ i),
      List.getElem?_eq_none (by simp; omega : (files.map runJob).length ≤ i)]

theorem addFiles_merged_nodup (incoming : List UploadFile) :
    ∀ state : List UploadFile, (state.map UploadFile.name).Nodup →
    ((incoming.foldl
      (fun acc f => if acc.any (fun g => g.name = f.name) then acc else acc ++ [f])
      state).map UploadFile.name).Nodup := by
  induction incoming with
  | nil => intro state h; exact h
  | cons f fs ih =>
    intro state h
    rw [List.foldl_cons]
    by_cases hdup : state.any (fun g => g.name = f.name)
    · rw [if_pos hdup]
      exact ih state h
    · rw [if_neg hdup]
      apply ih
      rw [List.map_append]
      simp only [List.map_cons, List.map_nil]
      rw [List.nodup_append]
      refine ⟨h, List.nodup_singleton _, ?_⟩
      intro a ha
      simp only [List.mem_singleton]
      intro hb
      subst hb
      rw [List.any_eq_true] at hdup
      rw [List.mem_map] at ha
      obtain ⟨g, hg, hgname⟩ := ha
      exact hdup ⟨g, hg, by simp [hgname]⟩

/-! ### Claims -/
/-- C4: the streaming response reader is invariant under re-chunking — for
every byte sequence and every partition of it into chunks (including
partitions splitting a record mid-line or a multi-byte encoding), the
sequence of record payload strings equals that of the unsplit sequence. -/
theorem readerRecords_rechunking (chunks : List (List Nat)) :
    readerRecords chunks = readerRecords [chunks.flatten] := by
  unfold readerRecords
  cases chunks with
  | nil => rfl
  | cons c cs =>
    unfold readLines
    rw [reader_foldl_join cs c readerHome [],
      reader_foldl_join [] (c :: cs).flatten readerHome []]
    simp

/-- C3: a job whose stream yields a sequence of text increments followed
by Done completes with output exactly the concatenation of the increments
in arrival order. -/
theorem incrementConcatenation (f : FileBehavior) (t : List Nat)
    (cs : List (List Nat)) (css : List (List Nat))
    (ht : f.extract = .ok t) (hllm : f.llm = .stream cs)
    (hrec : readerRecords cs = css.map mkChunkRecord ++ [mkDoneRecord]) :
    runJob f = ⟨f.name, .complete, strL "Complete", css.flatten⟩ := by
  apply runJob_stream_ok f t cs css.flatten ht hllm
  rw [hrec]
  unfold runRecords
  rw [runRecordsAux_chunks_done css []]
  simp

/-- C3 witness: the increments `Hel`, `lo, `, `world` produce exactly
`Hello, world`. -/
theorem incrementConcatenation_witness :
    runJob exFileC3 = ⟨strL "a.pdf", .complete, strL "Complete", strL "Hello, world"⟩ := by
  have h := incrementConcatenation exFileC3 (strL "T") exChunksC3
    [strL "Hel", strL "lo, ", strL "world"] rfl rfl (by decide)
  exact h.trans (by decide)

/-- C1: in a batch of at least two files where job `i` fails and every
other file's extraction and stream are well-behaved, the batch start
resolves normally with every job terminal, every complete schedule yields
that same table (no cancellation, pausing or interference between jobs),
and every other job is Complete with its own correct output. -/
theorem failureIsolation (files : List FileBehavior) (prompt : List Nat) (i : Nat)
    (hlen : 2 ≤ files.length) (hi : i < files.length)
    (hprompt : jsTrim prompt ≠ [])
    (_hfail : jobFails files[i])
    (_hothers : ∀ j (hj : j < files.length), j ≠ i → ∃ css, goodStream files[j] css) :
    handleParse files prompt = .ok (files.map runJob) ∧
    (∀ order, schedDone (runSched files order) = true →
      (runSched files order).1 = files.map runJob) ∧
    (∀ j (hj : j < files.length), j ≠ i → ∀ css, goodStream files[j] css →
      (files.map runJob)[j]? =
        some ⟨(files[j]).name, .complete, strL "Complete", css.flatten⟩) := by
  refine ⟨?_, ?_, ?_⟩
  · unfold handleParse
    rw [if_neg (by omega), if_neg hprompt]
  · intro order hdone
    exact runSched_done_eq files order hdone
  · intro j hj hne css hgood
    obtain ⟨⟨t, ht⟩, cs, hcs, hrec⟩ := hgood
    rw [List.getElem?_map, List.getElem?_eq_getElem hj]
    have hrun : runRecords (readerRecords cs) [] = (css.flatten, none) := by
      rw [hrec]
      unfold runRecords
      rw [runRecordsAux_chunks_done css []]
      simp
    simp only [Option.map_some']
    rw [runJob_stream_ok files[j] t cs css.flatten ht hcs hrun]

/-- C1 witness: a two-file batch where file 1 fails extraction; the start
call resolves and file 0 completes with its correct output. -/
theorem failureIsolation_witness :
    handleParse [exFileC3, exFileBad] (strL "Summarize")
      = .ok ([exFileC3, exFileBad].map runJob) ∧
    ([exFileC3, exFileBad].map runJob)[0]?
      = some ⟨strL "a.pdf", .complete, strL "Complete", strL "Hello, world"⟩ := by
  have h := failureIsolation [exFileC3, exFileBad] (strL "Summarize") 1
    (by decide) (by decide) (by decide)
    (Or.inl ⟨strL "corrupt PDF", rfl⟩)
    (by
      intro j hj hne
      have hj2 : j < 2 := by simpa using hj
      have hj0 : j = 0 := by omega
      subst hj0
      exact ⟨[strL "Hel", strL "lo, ", strL "world"],
        ⟨strL "T", rfl⟩, exChunksC3, rfl, by decide⟩)
  refine ⟨h.1, ?_⟩
  have h3 := h.2.2 0 (by decide) (by decide) [strL "Hel", strL "lo, ", strL "world"]
    ⟨⟨strL "T", rfl⟩, exChunksC3, rfl, by decide⟩
  exact h3.trans (by decide)

/-- C2: the result table is constructed once at batch start with one entry
per file in input order; at every point of every schedule it has the same
length and slot `i` carries file `i`'s name (no add, remove or reorder);
and every complete schedule ends with exactly each file's terminal result
in input order, regardless of completion order. -/
theorem jobOrderInvariant (files : List FileBehavior) (order : List Nat) :
    (runSched files []).1 = files.map initJob ∧
    (runSched files order).1.length = files.length ∧
    (∀ i (hi : i < files.length),
      ((runSched files order).1[i]?).map JobResult.filename = some (files[i]).name) ∧
    (schedDone (runSched files order) = true →
      (runSched files order).1 = files.map runJob) := by
  refine ⟨rfl, runSched_length files order, ?_, ?_⟩
  · intro i hi
    exact runSched_filename files order i hi
  · intro hdone
    exact runSched_done_eq files order hdone

/-- C2 witness: an interleaved complete schedule of the two-file batch
ends in the per-file terminal results, with slot 0 still named `a.pdf`. -/
theorem jobOrderInvariant_witness :
    schedDone (runSched [exFileC3, exFileBad] exOrder) = true ∧
    (runSched [exFileC3, exFileBad] exOrder).1 = [exFileC3, exFileBad].map runJob ∧
    ((runSched [exFileC3, exFileBad] exOrder).1[0]?).map JobResult.filename
      = some (strL "a.pdf") := by
  have h := jobOrderInvariant [exFileC3, exFileBad] exOrder
  have hdone : schedDone (runSched [exFileC3, exFileBad] exOrder) = true := by decide
  exact ⟨hdone, h.2.2.2 hdone, (h.2.2.1 0 (by decide)).trans (by decide)⟩

/-- C7: when a job fails mid-stream, its output keeps exactly the
increments accumulated before the failure and its status message carries
the error text; when the transport rejects before streaming, the output is
the (empty) accumulation and the message is likewise carried. -/
theorem outputRetainedOnFailure :
    (∀ (f : FileBehavior) (t : List Nat) (cs : List (List Nat))
      (css : List (List Nat)) (m : List Nat) (rest : List (List Nat)),
      f.extract = .ok t → f.llm = .stream cs →
      readerRecords cs = css.map mkChunkRecord ++ mkErrorRecord m :: rest →
      m ≠ [] → m ≠ unexpectedEndMsg →
      runJob f = ⟨f.name, .error, strL "Error: " ++ m, css.flatten⟩) ∧
    (∀ (f : FileBehavior) (t m : List Nat),
      f.extract = .ok t → f.llm = .reject m →
      runJob f = ⟨f.name, .error, strL "Error: " ++ m, []⟩) := by
  constructor
  · intro f t cs css m rest ht hllm hrec hm1 hm2
    apply runJob_stream_error f t cs css.flatten m ht hllm
    rw [hrec]
    unfold runRecords
    rw [runRecordsAux_chunks_error css m rest hm1 hm2 []]
    simp
  · intro f t m ht hllm
    exact runJob_reject f t m ht hllm

/-- C7 witness: a stream failing with `rate limited` after the increment
`par` leaves the job Failed with output `par` and the error message. -/
theorem outputRetainedOnFailure_witness :
    runJob exFileC7 = ⟨strL "c.pdf", .error, strL "Error: rate limited", strL "par"⟩ := by
  have h := outputRetainedOnFailure.1 exFileC7 (strL "T")
    [sseBytes [mkChunkRecord (strL "par"), mkErrorRecord (strL "rate limited")]]
    [strL "par"] (strL "rate limited") [] rfl rfl (by decide) (by decide) (by decide)
  exact h.trans (by decide)

/-- The two messages `jsonParse` can report. -/
theorem jsonParse_error_msg {p m : List Nat} (h : jsonParse p = .error m) :
    m = unexpectedEndMsg ∨ m = badTokenMsg := by
  unfold jsonParse at h
  cases hpv : parseVal (p.length + 8) p with
  | error e =>
    rw [hpv] at h
    cases e with
    | endOfInput =>
      simp only [jerrMsg, Except.error.injEq] at h
      exact Or.inl h.symm
    | badToken =>
      simp only [jerrMsg, Except.error.injEq] at h
      exact Or.inr h.symm
  | ok vr =>
    rw [hpv] at h
    by_cases hrest : skipJsonWs vr.2 = []
    · simp [hrest] at h
    · simp [hrest] at h
      exact Or.inr h.symm

/-- C5 counterexample: a stream whose first line is the non-parseable
payload `x`, followed by a valid increment and Done, does not reach
Complete — its job is Failed, because the catch only swallows the
truncated-input parse error and rethrows all others. -/
theorem malformedRecordFatal_counterexample :
    (runJob exFileC5).status = JobStatus.error ∧
    (runJob exFileC5).status ≠ JobStatus.complete := by decide

/-- C5 (amended): a record payload is silently skipped only when its parse
failure is the truncated-input error; any other parse failure is rethrown
and fails the job; a stream with one truncated-JSON line before the
increments and Done still completes; and a parsed record with a truthy
error field surfaces `String(parsed.error)` and ends consumption unless
that message is empty or exactly the truncated-input message, in which
case it is swallowed and the record is skipped. -/
theorem malformedRecordPolicy :
    (∀ acc p, jsonParse p = .error unexpectedEndMsg → processRecord acc p = .ok acc) ∧
    (∀ acc p m, jsonParse p = .error m → m ≠ unexpectedEndMsg →
      processRecord acc p = .error m) ∧
    (∀ (f : FileBehavior) (t : List Nat) (cs : List (List Nat))
      (css : List (List Nat)) (mal : List Nat),
      f.extract = .ok t → f.llm = .stream cs →
      jsonParse mal = .error unexpectedEndMsg →
      readerRecords cs = mal :: (css.map mkChunkRecord ++ [mkDoneRecord]) →
      runJob f = ⟨f.name, .complete, strL "Complete", css.flatten⟩) ∧
    (∀ acc p v, jsonParse p = .ok v → isNullJson v = false →
      jsTruthy (jsGet v (strL "error")) = true →
      (jsToStringF (p.length + 2) ((jsGet v (strL "error")).getD .null) ≠ [] ∧
        jsToStringF (p.length + 2) ((jsGet v (strL "error")).getD .null) ≠ unexpectedEndMsg →
        processRecord acc p
          = .error (jsToStringF (p.length + 2) ((jsGet v (strL "error")).getD .null))) ∧
      (jsToStringF (p.length + 2) ((jsGet v (strL "error")).getD .null) = [] ∨
        jsToStringF (p.length + 2) ((jsGet v (strL "error")).getD .null) = unexpectedEndMsg →
        processRecord acc p = .ok acc)) := by
  refine ⟨?_, ?_, ?_, ?_⟩
  · intro acc p h
    unfold processRecord
    rw [h]
    simp
  · intro acc p m h hne
    rcases jsonParse_error_msg h with h0 | h0
    · exact absurd h0 hne
    · subst h0
      unfold processRecord
      rw [h]
      have hc1 : badTokenMsg ≠ [] := by decide
      have hc2 : badTokenMsg ≠ unexpectedEndMsg := by decide
      simp [hc1, hc2]
  · intro f t cs css mal ht hllm hmal hrec
    apply runJob_stream_ok f t cs css.flatten ht hllm
    rw [hrec]
    unfold runRecords
    have hp1 : processRecord [] mal = .ok [] := by
      unfold processRecord
      rw [hmal]
      simp
    simp [runRecordsAux, hp1, runRecordsAux_chunks_done css []]
  · intro acc p v hparse hnull htr
    constructor
    · intro hne
      unfold processRecord
      rw [hparse]
      simp [hnull, htr, hne.1, hne.2]
    · intro hor
      unfold processRecord
      rw [hparse]
      rcases hor with h0 | h0 <;> simp [hnull, htr, h0]

/-- C5 amended witness: the truncated payload `brace` is skipped and the
stream still completes with the remaining increment. -/
theorem malformedRecordPolicy_witness :
    processRecord [] [123] = .ok [] ∧
    runJob exFileC5b = ⟨strL "a.pdf", .complete, strL "Complete", strL "A"⟩ := by
  constructor
  · exact malformedRecordPolicy.1 [] [123] rfl
  · have h := malformedRecordPolicy.2.2.1 exFileC5b (strL "T")
      [sseBytes [[123], mkChunkRecord (strL "A"), mkDoneRecord]] [strL "A"] [123]
      rfl rfl rfl (by decide)
    exact h.trans (by decide)

/-- C6: every response of the backend streaming endpoint, for every
provider record handling and every upstream behaviour, is zero or more
chunk records followed by exactly one terminal record — done when the
upstream was exhausted, error when the handshake was rejected or the
stream failed — never both terminals and never neither. -/
theorem terminalRecordShape (extract : List Nat → Option Json) (u : UpstreamFetch) :
    ∃ cs : List Json,
      llmHandler extract u = cs.map SseRecord.chunk ++ [SseRecord.done] ∨
      ∃ m, llmHandler extract u = cs.map SseRecord.chunk ++ [SseRecord.err m] := by
  cases u with
  | rejected m => exact ⟨[], Or.inr ⟨m, rfl⟩⟩
  | ok chunks readError =>
    cases readError with
    | none =>
      exact ⟨(readerRecords chunks).filterMap extract,
        Or.inl (by simp [llmHandler, streamProvider])⟩
    | some m =>
      exact ⟨(readerRecords chunks).filterMap extract,
        Or.inr ⟨m, by simp [llmHandler, streamProvider]⟩⟩

/-- C8: starting a batch with an empty file list, or with a prompt that
trims to empty, rejects with the corresponding message before any job is
constructed (the error branches of `handleParse` build nothing). -/
theorem emptyInputRejection (files : List FileBehavior) (prompt : List Nat) :
    (files = [] →
      handleParse files prompt = .error (strL "Please upload at least one PDF file")) ∧
    (files ≠ [] → jsTrim prompt = [] →
      handleParse files prompt = .error (strL "Please enter a prompt")) := by
  constructor
  · intro h
    subst h
    rfl
  · intro hne hp
    unfold handleParse
    rw [if_neg (fun h0 => hne (List.length_eq_zero.mp h0)), if_pos hp]

/-- C8 witness: both rejection branches fire on concrete inputs. -/
theorem emptyInputRejection_witness :
    handleParse [] (strL "p") = .error (strL "Please upload at least one PDF file") ∧
    handleParse [exFileC3] [] = .error (strL "Please enter a prompt") :=
  ⟨(emptyInputRejection [] (strL "p")).1 rfl,
   (emptyInputRejection [exFileC3] []).2 (by decide) rfl⟩

/-- C9 counterexample: the Anthropic adapter sets no sampling temperature
at all, and all three adapters hard-wire the 16000-token output cap — no
configurable generation ceiling exists. -/
theorem adapterParams_counterexample :
    (anthropicRequest (strL "m") (strL "e")).temperature = none ∧
    (openaiRequest (strL "m") (strL "e")).maxOutputTokens = 16000 ∧
    (anthropicRequest (strL "m") (strL "e")).maxOutputTokens = 16000 ∧
    (geminiRequest (strL "m") (strL "e")).maxOutputTokens = 16000 :=
  ⟨rfl, rfl, rfl, rfl⟩

/-- C9 (amended): for every request, each adapter caps the requested
output length at the hard-wired 16000 tokens; OpenAI and Gemini set the
fixed temperature 0.7 while Anthropic sets none; only the model name is
configurable (request override, then environment variable, then a
hard-wired default); nothing is retried or adjusted. -/
theorem adapterParams (modelName envModel : List Nat) :
    (openaiRequest modelName envModel).maxOutputTokens = 16000 ∧
    (anthropicRequest modelName envModel).maxOutputTokens = 16000 ∧
    (geminiRequest modelName envModel).maxOutputTokens = 16000 ∧
    (openaiRequest modelName envModel).temperature = some ((7 : Rat) / 10) ∧
    (geminiRequest modelName envModel).temperature = some ((7 : Rat) / 10) ∧
    (anthropicRequest modelName envModel).temperature = none ∧
    (openaiRequest modelName envModel).model
      = jsOrStr modelName (jsOrStr envModel (strL "gpt-5.1")) ∧
    (anthropicRequest modelName envModel).model
      = jsOrStr modelName (jsOrStr envModel (strL "claude-sonnet-4-5-20250929")) ∧
    (geminiRequest modelName envModel).model
      = jsOrStr modelName (jsOrStr envModel (strL "gemini-3-pro-preview")) :=
  ⟨rfl, rfl, rfl, rfl, rfl, rfl, rfl, rfl, rfl⟩

/-- C10: after a file-add on a state with pairwise-distinct names, the
uploaded list is sorted by name (locale collation modelled as code point
order) and still has pairwise-distinct names. -/
theorem fileListSortedNodup (state incoming : List UploadFile)
    (h : (state.map UploadFile.name).Nodup) :
    ((addFiles state incoming).map UploadFile.name).Nodup ∧
    (addFiles state incoming).Pairwise (fun a b => a.name ≤ b.name) := by
  constructor
  · have hmerged := addFiles_merged_nodup (incoming.filter isPdfFile) state h
    have hperm := List.mergeSort_perm
      ((incoming.filter isPdfFile).foldl
        (fun acc f => if acc.any (fun g => g.name = f.name) then acc else acc ++ [f])
        state) fileLe
    exact ((hperm.map UploadFile.name).symm).nodup hmerged
  · have htrans : ∀ a b c : UploadFile,
        fileLe a b = true → fileLe b c = true → fileLe a c = true := by
      intro a b c hab hbc
      simp only [fileLe, decide_eq_true_eq] at hab hbc ⊢
      exact le_trans hab hbc
    have htotal : ∀ a b : UploadFile, (fileLe a b || fileLe b a) = true := by
      intro a b
      simp only [fileLe, Bool.or_eq_true, decide_eq_true_eq]
      exact le_total a.name b.name
    have hs := List.sorted_mergeSort htrans htotal
      ((incoming.filter isPdfFile).foldl
        (fun acc f => if acc.any (fun g => g.name = f.name) then acc else acc ++ [f])
        state)
    exact hs.imp (fun hab => by simpa [fileLe, decide_eq_true_eq] using hab)

/-- C10 witness: adding files (with an in-batch duplicate) to an empty
list yields a duplicate-free name list. -/
theorem fileListSortedNodup_witness :
    ((addFiles [] exUploads).map UploadFile.name).Nodup :=
  (fileListSortedNodup [] exUploads (by decide)).1

end TranscriptParser
